import Mathlib

/-!
Verification of the tungus real-time renderer (Rust). The development is a
shallow embedding of the pure, state-passing parts of the source: vectors and
matrices become functions over `Fin n` with rational or real entries, mutation
becomes explicit state passing, and float arithmetic is modelled with exact
rational or real arithmetic. Each section names the Rust source it embeds.
-/

namespace Tungus

/-- Three-component column vector (glm `Vec3`) over a scalar type. -/
abbrev V3 (K : Type) := Fin 3 → K

/-- Four-component column vector (glm `Vec4`) over a scalar type. -/
abbrev V4 (K : Type) := Fin 4 → K

/-- The 3x3 matrix type (glm `Mat3`). -/
abbrev M3 (K : Type) := Matrix (Fin 3) (Fin 3) K

/-- The 4x4 matrix type (glm `Mat4`). -/
abbrev M4 (K : Type) := Matrix (Fin 4) (Fin 4) K

/-- Conversion of a boolean to a scalar, embedding Rust's `b as i32 as f32`. -/
def boolScalar (K : Type) [Zero K] [One K] (b : Bool) : K := if b then 1 else 0

/-! ## Lighting (src/lighting.rs) -/

/-- Spotlight from src/lighting.rs: position, direction, stored colors,
attenuation, the inner/outer cone angles `phi`/`gamma`, and the `on` flag. -/
structure Spotlight where
  pos : V3 ℚ
  dir : V3 ℚ
  amb : V3 ℚ
  diff : V3 ℚ
  spec : V3 ℚ
  att : V3 ℚ
  phi : ℚ
  gamma : ℚ
  isOn : Bool
  -- embeds the source field named on

/-- Spotlight::new sets all fields from the arguments and turns the light on. -/
def Spotlight.new (pos dir amb diff spec att : V3 ℚ) (phi gamma : ℚ) : Spotlight :=
  { pos := pos, dir := dir, amb := amb, diff := diff, spec := spec, att := att,
    phi := phi, gamma := gamma, isOn := true }

/-- Spotlight::get_amb: `self.amb * (self.on as i32 as f32)`. -/
def Spotlight.getAmb (l : Spotlight) : V3 ℚ := fun i => l.amb i * boolScalar ℚ l.isOn

/-- Spotlight::get_diff: `self.diff * (self.on as i32 as f32)`. -/
def Spotlight.getDiff (l : Spotlight) : V3 ℚ := fun i => l.diff i * boolScalar ℚ l.isOn

/-- Spotlight::get_spec: `self.spec * (self.on as i32 as f32)`. -/
def Spotlight.getSpec (l : Spotlight) : V3 ℚ := fun i => l.spec i * boolScalar ℚ l.isOn

/-! ## Screen controller (src/screen.rs) -/

/-- The key codes distinguished by ScreenController::on_key_pressed; every
other key falls into the wildcard arm. -/
inductive Keycode
  | e
  | m
  | equals
  | minus
  | other
deriving DecidableEq

/-- Constant GAMMA from src/screen.rs. -/
def GAMMA : ℚ := 2.2

/-- ScreenController state from src/screen.rs. -/
structure ScreenController where
  sobelOn : Bool
  msaaOn : Bool
  gamma : ℚ
deriving DecidableEq

/-- ScreenController::new: sobel off, msaa on, gamma = GAMMA. -/
def ScreenController.new : ScreenController :=
  { sobelOn := false, msaaOn := true, gamma := GAMMA }

/-- ScreenController::on_key_pressed from src/screen.rs lines 179-188. -/
def ScreenController.onKeyPressed (c : ScreenController) : Keycode → ScreenController
  | .e => { c with sobelOn := !c.sobelOn }
  | .m => { c with msaaOn := !c.msaaOn }
  | .equals => { c with gamma := min (c.gamma + 0.2) 3 }
  | .minus => { c with gamma := max (c.gamma - 0.2) 1 }
  | .other => c

/-- Folding a list of key-pressed signals through the controller, as the
Slot::on_signal dispatch does one signal at a time. -/
def ScreenController.afterKeys (c : ScreenController) (keys : List Keycode) : ScreenController :=
  keys.foldl ScreenController.onKeyPressed c

/-- ScreenParameters from src/screen.rs (window size and clear color carried
along but irrelevant to the controller). -/
structure ScreenParameters where
  clearColor : V4 ℚ
  sobelOn : Bool
  msaaOn : Bool
  gamma : ℚ
  windowSize : ℕ × ℕ

/-- Controller::process_signals for ScreenController (src/screen.rs lines
199-209): copies the controller state into the screen's parameters. -/
def ScreenController.processSignals (c : ScreenController) (p : ScreenParameters) :
    ScreenParameters :=
  { p with sobelOn := c.sobelOn, msaaOn := c.msaaOn, gamma := c.gamma }

/-! ## Spatial transform algebra (src/spatial.rs), generic over the scalar field -/

section SpatialOps

variable {K : Type} [Field K]

/-- nalgebra-glm `translation(v)`: identity with `v` in the translation column. -/
def translationMat (v : V3 K) : M4 K :=
  Matrix.of ![![1, 0, 0, v 0], ![0, 1, 0, v 1], ![0, 0, 1, v 2], ![0, 0, 0, 1]]

/-- nalgebra-glm `scaling(s)`: diagonal scale matrix. -/
def scalingMat (s : V3 K) : M4 K :=
  Matrix.of ![![s 0, 0, 0, 0], ![0, s 1, 0, 0], ![0, 0, s 2, 0], ![0, 0, 0, 1]]

/-- nalgebra-glm `vec3_to_vec4`: pad with a zero w component. -/
def vec3ToVec4 (v : V3 K) : V4 K := ![v 0, v 1, v 2, 0]

/-- nalgebra-glm `vec4_to_vec3`: drop the w component. -/
def vec4ToVec3 (v : V4 K) : V3 K := ![v 0, v 1, v 2]

/-- nalgebra-glm `mat4_to_mat3`: the upper-left 3x3 block. -/
def mat4ToMat3 (M : M4 K) : M3 K := fun i j => M i.castSucc j.castSucc

/-- Spatial::translate from src/spatial.rs: add the padded offset into
column 3 of the model matrix. -/
def spatialTranslate (M : M4 K) (offset : V3 K) : M4 K :=
  M.updateColumn 3 (fun i => M i 3 + vec3ToVec4 offset i)

/-- Spatial::apply_rotation (and the body of Spatial::rotate) from
src/spatial.rs: save column 3, replace it by `(0,0,0,m33)`, left-multiply the
rotation, then restore the saved column. -/
def spatialApplyRotation (M : M4 K) (rot : M4 K) : M4 K :=
  let translation : V4 K := fun i => M i 3
  let M1 := M.updateColumn 3 ![0, 0, 0, M 3 3]
  (rot * M1).updateColumn 3 translation

/-- Spatial::scale from src/spatial.rs: conjugate the diagonal scale by the
translation to the origin taken from column 3 of the model matrix. -/
def spatialScale (M : M4 K) (factors : V3 K) : M4 K :=
  let toOrigin : V3 K := -vec4ToVec3 (fun i => M i 3)
  translationMat (-toOrigin) * scalingMat factors * translationMat toOrigin * M

/-- Matrix inverse as computed by nalgebra `try_inverse` on an invertible
matrix: the adjugate divided by the determinant. -/
def tryInverse (M : M4 K) : M4 K := M.det⁻¹ • M.adjugate

end SpatialOps

/-! ## Scene objects and instances (src/scene.rs) -/

/-- Instance from src/scene.rs: per-instance model/normal/extra matrices. -/
structure Instance where
  model : M4 ℚ
  normal : M3 ℚ
  trans : M4 ℚ
  rot : M4 ℚ
deriving DecidableEq

/-- Instance::new: all four matrices are identities. -/
def Instance.new : Instance := { model := 1, normal := 1, trans := 1, rot := 1 }

/-- Instance::get_normal from src/scene.rs lines 50-53: eagerly recompute the
normal matrix as `mat4_to_mat3(model.try_inverse().unwrap().transpose())`,
store it, and return it. The returned value is the second component. -/
def Instance.getNormal (a : Instance) : Instance × M3 ℚ :=
  let n := mat4ToMat3 (tryInverse a.model).transpose
  ({ a with normal := n }, n)

/-- Instance::set_model. -/
def Instance.setModel (a : Instance) (model : M4 ℚ) : Instance := { a with model := model }

/-- SceneObject from src/scene.rs, with the GPU-only fields (drawable, ibo)
omitted: the instance list, model and normal matrices, outline color, and the
two dirty flags. -/
structure SceneObject where
  instances : List Instance
  model : M4 ℚ
  normal : M3 ℚ
  outline : V4 ℚ
  dirtyInstances : Bool
  dirtyNormal : Bool

/-- SceneObject::from (the pure part): one fresh instance, identity model and
normal matrices, zero outline, both dirty flags false. -/
def SceneObject.fromDrawable : SceneObject :=
  { instances := [Instance.new], model := 1, normal := 1, outline := 0,
    dirtyInstances := false, dirtyNormal := false }

/-- SceneObject::get_instance from src/scene.rs lines 128-135: a negative
index counts from the end (`len - (-instance)`); indexing out of bounds
panics in Rust and yields `none` here. -/
def SceneObject.getInstance (o : SceneObject) (inst : ℤ) : Option Instance :=
  if inst < 0 then
    o.instances.get? (o.instances.length - (-inst).toNat)
  else
    o.instances.get? inst.toNat

/-- SceneObject::get_instance_mut from src/scene.rs lines 137-145: sets
`dirty_instances` and returns the same instance as `get_instance`; the
state after the call is the second component. -/
def SceneObject.getInstanceMut (o : SceneObject) (inst : ℤ) :
    Option Instance × SceneObject :=
  let o2 := { o with dirtyInstances := true }
  (if inst < 0 then
     o2.instances.get? (o2.instances.length - (-inst).toNat)
   else
     o2.instances.get? inst.toNat, o2)

/-- Spatial::get_model for SceneObject. -/
def SceneObject.getModel (o : SceneObject) : M4 ℚ := o.model

/-- Spatial::set_model for SceneObject. -/
def SceneObject.setModel (o : SceneObject) (model : M4 ℚ) : SceneObject :=
  { o with model := model }

/-- Spatial::get_normal for SceneObject (src/scene.rs lines 201-206): the
normal matrix is recomputed only when `dirty_normal` is set; the returned
value is the second component. -/
def SceneObject.getNormal (o : SceneObject) : SceneObject × M3 ℚ :=
  if o.dirtyNormal then
    let n := mat4ToMat3 (tryInverse o.model).transpose
    ({ o with normal := n }, n)
  else
    (o, o.normal)

/-- Spatial::translate acting on a SceneObject through get_model/set_model. -/
def SceneObject.translateBy (o : SceneObject) (offset : V3 ℚ) : SceneObject :=
  o.setModel (spatialTranslate o.getModel offset)

/-- Spatial::scale acting on a SceneObject through get_model/set_model. -/
def SceneObject.scaleBy (o : SceneObject) (factors : V3 ℚ) : SceneObject :=
  o.setModel (spatialScale o.getModel factors)

/-! ## Back-to-front object ordering in Scene::draw_objects (src/scene.rs) -/

/-- The camera-to-object squared distance used (under a square root) by
`distance_compare`: the object position is the xyz part of column 3 of its
model matrix. -/
def objDistSq (camPos : V3 ℚ) (o : SceneObject) : ℚ :=
  let p := vec4ToVec3 (fun i => o.getModel i 3)
  (camPos 0 - p 0) ^ 2 + (camPos 1 - p 1) ^ 2 + (camPos 2 - p 2) ^ 2

/-- The ordering realized by `distance_compare`
(`distance_b.partial_cmp(&distance_a)`): object `a` precedes object `b`
exactly when its distance to the camera is at least that of `b`. Comparing
the squared distances is equivalent since both are nonnegative. -/
def distCompareLe (camPos : V3 ℚ) (a b : SceneObject) : Prop :=
  objDistSq camPos b ≤ objDistSq camPos a

instance (camPos : V3 ℚ) : DecidableRel (distCompareLe camPos) :=
  fun a b => inferInstanceAs (Decidable (objDistSq camPos b ≤ objDistSq camPos a))

instance (camPos : V3 ℚ) : IsTotal SceneObject (distCompareLe camPos) :=
  ⟨fun a b => le_total (objDistSq camPos b) (objDistSq camPos a)⟩

instance (camPos : V3 ℚ) : IsTrans SceneObject (distCompareLe camPos) :=
  ⟨fun _ _ _ hab hbc => le_trans hbc hab⟩

/-- The object ordering produced by `self.objects.sort_by(distance_compare)`
in Scene::draw_objects (src/scene.rs lines 311-319); Rust's stable
`sort_by` is modelled by a stable comparison sort. -/
def drawObjectsOrder (camPos : V3 ℚ) (objs : List SceneObject) : List SceneObject :=
  List.insertionSort (distCompareLe camPos) objs

/-- Euclidean camera-to-object distance, the value `length(camera_pos - pos)`
computed by `distance_compare`. -/
noncomputable def objDist (camPos : V3 ℚ) (o : SceneObject) : ℝ :=
  Real.sqrt ((objDistSq camPos o : ℚ) : ℝ)

/-! ## Camera (src/camera.rs), over the reals -/

/-- Componentwise dot product of two glm Vec3 values. -/
def dot3 (a b : V3 ℝ) : ℝ := a 0 * b 0 + a 1 * b 1 + a 2 * b 2

/-- Squared Euclidean norm of a glm Vec3. -/
def normSq3 (a : V3 ℝ) : ℝ := dot3 a a

/-- nalgebra `angle(a, b)`: zero when either argument has zero norm, otherwise
the arccosine of the clamped normalized dot product. -/
noncomputable def glmAngle (a b : V3 ℝ) : ℝ :=
  if normSq3 a = 0 ∨ normSq3 b = 0 then 0
  else Real.arccos (min (max (dot3 a b / Real.sqrt (normSq3 a * normSq3 b)) (-1)) 1)

/-- Constant ANGLE_LOWER_BOUND from src/camera.rs line 9. -/
def ANGLE_LOWER_BOUND : ℝ := 0.001

/-- Rust `f32::to_radians`: multiply by pi / 180. -/
noncomputable def toRadians (x : ℝ) : ℝ := x * (Real.pi / 180)

/-- Rust `f32::to_degrees`: multiply by 180 / pi. -/
noncomputable def toDegrees (x : ℝ) : ℝ := x * (180 / Real.pi)

/-- Camera from src/camera.rs. -/
structure Camera where
  pos : V3 ℝ
  direction : V3 ℝ
  pitch : ℝ
  yaw : ℝ
  roll : ℝ
  fov : ℝ

/-- Camera::new from src/camera.rs lines 22-40: the focal point is the
negated initial position, yaw and pitch are angles of its horizontal and
frontal projections against the x axis. -/
noncomputable def Camera.new (initialPos : V3 ℝ) : Camera :=
  let focalPoint : V3 ℝ := -initialPos
  let yaw := glmAngle ![focalPoint 0, 0, focalPoint 2] ![1, 0, 0]
  let pitch := glmAngle ![focalPoint 0, focalPoint 1, 0] ![1, 0, 0]
  { pos := initialPos, direction := focalPoint, pitch := pitch, yaw := yaw,
    roll := 0, fov := 1 }

/-- Camera::rotate from src/camera.rs lines 80-90: pitch is updated with
`.max(-PI/2 + ANGLE_LOWER_BOUND).min(PI/2 - ANGLE_LOWER_BOUND)`, yaw and roll
accumulate unclamped, and the direction is recomputed from yaw and pitch. -/
noncomputable def Camera.rotate (c : Camera) (eulerAngles : V3 ℝ) : Camera :=
  let pitch := min (max (c.pitch + toRadians (eulerAngles 0))
      (-(Real.pi / 2) + ANGLE_LOWER_BOUND)) (Real.pi / 2 - ANGLE_LOWER_BOUND)
  let yaw := c.yaw + toRadians (eulerAngles 1)
  let roll := c.roll + toRadians (eulerAngles 2)
  { c with
    pitch := pitch
    yaw := yaw
    roll := roll
    direction := ![Real.cos yaw * Real.cos pitch, Real.sin pitch,
      Real.sin yaw * Real.cos pitch] }

/-- Camera::rotate_pitch. -/
noncomputable def Camera.rotatePitch (c : Camera) (rotation : ℝ) : Camera :=
  c.rotate ![rotation, 0, 0]

/-- Camera::rotate_yaw. -/
noncomputable def Camera.rotateYaw (c : Camera) (rotation : ℝ) : Camera :=
  c.rotate ![0, rotation, 0]

/-- Camera::invert from src/camera.rs lines 106-111: rotate pitch by minus
twice its value in degrees, then rotate yaw by 180 degrees. -/
noncomputable def Camera.invert (c : Camera) : Camera :=
  (c.rotatePitch (toDegrees c.pitch * -2)).rotateYaw 180

/-- Camera::translate_forward from src/camera.rs lines 69-75: subtract
`offset * (cos yaw, 0, sin yaw)` from the position. -/
noncomputable def Camera.translateForward (c : Camera) (offset : ℝ) : Camera :=
  let direction : V3 ℝ := fun i => ![Real.cos c.yaw, 0, Real.sin c.yaw] i * offset
  { c with pos := c.pos - direction }

/-- Applying a sequence of Camera::rotate calls in order. -/
noncomputable def Camera.rotateSeq (c : Camera) (rots : List (V3 ℝ)) : Camera :=
  rots.foldl Camera.rotate c

/-! ## Spatial operation traces over the reals (src/spatial.rs) -/

/-- nalgebra-glm `rotation(angle, axis)`: the homogeneous Rodrigues rotation
matrix about the normalized axis. -/
noncomputable def rotationMat (angle : ℝ) (axis : V3 ℝ) : M4 ℝ :=
  let n := Real.sqrt (normSq3 axis)
  let x := axis 0 / n
  let y := axis 1 / n
  let z := axis 2 / n
  let c := Real.cos angle
  let s := Real.sin angle
  Matrix.of
    ![![c + x * x * (1 - c), x * y * (1 - c) - z * s, x * z * (1 - c) + y * s, 0],
      ![y * x * (1 - c) + z * s, c + y * y * (1 - c), y * z * (1 - c) - x * s, 0],
      ![z * x * (1 - c) - y * s, z * y * (1 - c) + x * s, c + z * z * (1 - c), 0],
      ![0, 0, 0, 1]]

/-- One call to a mutating method of the Spatial trait. -/
inductive SpatialOp
  | translate (offset : V3 ℝ)
  | rotate (angle : ℝ) (axis : V3 ℝ)
  | scale (factors : V3 ℝ)

/-- The model matrix after one Spatial call, per src/spatial.rs: `rotate`
first builds the glm rotation matrix and then performs the apply_rotation
column dance. -/
noncomputable def applySpatialOp (M : M4 ℝ) : SpatialOp → M4 ℝ
  | .translate v => spatialTranslate M v
  | .rotate angle axis => spatialApplyRotation M (rotationMat angle axis)
  | .scale factors => spatialScale M factors

/-- The model matrix after a whole sequence of Spatial calls. -/
noncomputable def applySpatialOps (M : M4 ℝ) (ops : List SpatialOp) : M4 ℝ :=
  ops.foldl applySpatialOp M

/-- Whether an operation is a rotate or a scale (a linear transform, not a
translation). -/
def SpatialOp.isLinear : SpatialOp → Bool
  | .translate _ => false
  | .rotate _ _ => true
  | .scale _ => true

/-- The sum of the offsets of all translate operations in a trace. -/
def transOffsetSum : List SpatialOp → V3 ℝ
  | [] => 0
  | .translate v :: ops => v + transOffsetSum ops
  | .rotate _ _ :: ops => transOffsetSum ops
  | .scale _ :: ops => transOffsetSum ops

/-! ## Cube mesh construction (src/meshes.rs) -/

/-- Vertex from src/meshes.rs: position, normal, texture coordinates. -/
structure Vertex where
  pos : V3 ℝ
  normal : V3 ℝ
  texCoords : V3 ℝ

/-- Vertex::new: the given position with zero normal and tex coords. -/
def Vertex.new (px py pz : ℝ) : Vertex :=
  { pos := ![px, py, pz], normal := ![0, 0, 0], texCoords := ![0, 0, 0] }

/-- Cross product of two glm Vec3 values. -/
def cross3 (a b : V3 ℝ) : V3 ℝ :=
  ![a 1 * b 2 - a 2 * b 1, a 2 * b 0 - a 0 * b 2, a 0 * b 1 - a 1 * b 0]

/-- nalgebra-glm `normalize`: divide by the Euclidean norm. -/
noncomputable def normalize3 (v : V3 ℝ) : V3 ℝ :=
  fun i => v i / Real.sqrt (normSq3 v)

/-- The 24 cube vertices of BasicMesh::cube (src/meshes.rs lines 106-131). -/
noncomputable def cubeBaseVertices (side : ℝ) : List Vertex :=
  [Vertex.new (-side / 2) (side / 2) (-side / 2),
   Vertex.new (side / 2) (side / 2) (-side / 2),
   Vertex.new (-side / 2) (side / 2) (side / 2),
   Vertex.new (side / 2) (side / 2) (side / 2),
   Vertex.new (-side / 2) (-side / 2) (-side / 2),
   Vertex.new (side / 2) (-side / 2) (-side / 2),
   Vertex.new (-side / 2) (-side / 2) (side / 2),
   Vertex.new (side / 2) (-side / 2) (side / 2),
   Vertex.new (side / 2) (side / 2) (-side / 2),
   Vertex.new (-side / 2) (side / 2) (-side / 2),
   Vertex.new (side / 2) (-side / 2) (-side / 2),
   Vertex.new (-side / 2) (-side / 2) (-side / 2),
   Vertex.new (side / 2) (side / 2) (side / 2),
   Vertex.new (side / 2) (side / 2) (-side / 2),
   Vertex.new (side / 2) (-side / 2) (side / 2),
   Vertex.new (side / 2) (-side / 2) (-side / 2),
   Vertex.new (-side / 2) (side / 2) (side / 2),
   Vertex.new (side / 2) (side / 2) (side / 2),
   Vertex.new (-side / 2) (-side / 2) (side / 2),
   Vertex.new (side / 2) (-side / 2) (side / 2),
   Vertex.new (-side / 2) (side / 2) (-side / 2),
   Vertex.new (-side / 2) (side / 2) (side / 2),
   Vertex.new (-side / 2) (-side / 2) (-side / 2),
   Vertex.new (-side / 2) (-side / 2) (side / 2)]

/-- The 36 cube indices of BasicMesh::cube (src/meshes.rs lines 133-136). -/
def cubeIndices : List ℕ :=
  [0, 2, 1, 1, 2, 3, 4, 5, 6, 6, 5, 7, 8, 10, 9, 9, 10, 11, 12, 14, 13, 13, 14,
   15, 16, 18, 17, 17, 18, 19, 20, 22, 21, 21, 22, 23]

/-- Position of cube vertex `k` (out-of-range reads return the zero vertex;
all reads in the construction are in range). -/
noncomputable def cubeVertexPos (side : ℝ) (k : ℕ) : V3 ℝ :=
  ((cubeBaseVertices side).getD k (Vertex.new 0 0 0)).pos

/-- The accumulation `normals[idx] += normal` on the normals array. -/
def addAt (f : ℕ → V3 ℝ) (k : ℕ) (v : V3 ℝ) : ℕ → V3 ℝ :=
  fun j => if j = k then f j + v else f j

/-- One iteration of the face loop of BasicMesh::cube (src/meshes.rs lines
139-157): the first triangle's face normal is accumulated onto its three
vertices, and the normal recomputed from the opposite vertex onto the face's
fourth vertex. -/
noncomputable def cubeFaceStep (side : ℝ) (normals : ℕ → V3 ℝ) (i : ℕ) : ℕ → V3 ℝ :=
  let mainVertex := cubeVertexPos side (cubeIndices.getD (i * 6) 0)
  let v1 := cubeVertexPos side (cubeIndices.getD (i * 6 + 1) 0)
  let v2 := cubeVertexPos side (cubeIndices.getD (i * 6 + 2) 0)
  let normal := normalize3 (cross3 (v1 - mainVertex) (v2 - mainVertex))
  let normals1 :=
    addAt (addAt (addAt normals (cubeIndices.getD (i * 6) 0) normal)
      (cubeIndices.getD (i * 6 + 1) 0) normal) (cubeIndices.getD (i * 6 + 2) 0) normal
  let oppositeVertex := cubeVertexPos side (cubeIndices.getD (i * 6 + 5) 0)
  let normal2 := normalize3 (cross3 (v2 - oppositeVertex) (v1 - oppositeVertex))
  addAt normals1 (cubeIndices.getD (i * 6 + 5) 0) normal2

/-- The normals array after the `for i in 0..6` face loop. -/
noncomputable def cubeNormalsArr (side : ℝ) : ℕ → V3 ℝ :=
  (List.range 6).foldl (cubeFaceStep side) (fun _ => 0)

/-- The pure data of BasicMesh (GPU handles and material omitted). -/
structure BasicMesh where
  vertices : List Vertex
  indices : List ℕ

/-- BasicMesh::cube (src/meshes.rs lines 101-173): each vertex gets the
accumulated normal divided by 4 and checkerboard texture coordinates. -/
noncomputable def BasicMesh.cube (side : ℝ) : BasicMesh :=
  { vertices := (cubeBaseVertices side).mapIdx fun i v =>
      { v with
        normal := fun c => cubeNormalsArr side i c / 4
        texCoords := ![((i % 2 : ℕ) : ℝ), (((i / 2) % 2 : ℕ) : ℝ), 0] },
    indices := cubeIndices }

/-! ## Theorems -/

/-- Claim C6: a Spotlight with `on = false` has zero shader-facing
ambient/diffuse/specular outputs regardless of the other fields, and with
`on = true` the getters return the stored colors unchanged. -/
theorem spotlight_gating (l : Spotlight) :
    (l.isOn = false → l.getAmb = 0 ∧ l.getDiff = 0 ∧ l.getSpec = 0) ∧
    (l.isOn = true → l.getAmb = l.amb ∧ l.getDiff = l.diff ∧ l.getSpec = l.spec) := by
  constructor <;> intro h <;> refine ⟨funext fun i => ?_, funext fun i => ?_, funext fun i => ?_⟩ <;>
    simp [Spotlight.getAmb, Spotlight.getDiff, Spotlight.getSpec, boolScalar, h]

/-- Witness for C6: a concrete spotlight that is switched off emits zero, and
the same spotlight switched on emits its stored colors. -/
theorem spotlight_gating_witness :
    (({ Spotlight.new ![1, 2, 3] ![0, 0, 1] ![1, 0, 0] ![0, 1, 0] ![0, 0, 1]
        ![1, 1, 1] 10 20 with isOn := false } : Spotlight).getAmb = 0 ∧
      ({ Spotlight.new ![1, 2, 3] ![0, 0, 1] ![1, 0, 0] ![0, 1, 0] ![0, 0, 1]
        ![1, 1, 1] 10 20 with isOn := false } : Spotlight).getDiff = 0 ∧
      ({ Spotlight.new ![1, 2, 3] ![0, 0, 1] ![1, 0, 0] ![0, 1, 0] ![0, 0, 1]
        ![1, 1, 1] 10 20 with isOn := false } : Spotlight).getSpec = 0) ∧
    (Spotlight.new ![1, 2, 3] ![0, 0, 1] ![1, 0, 0] ![0, 1, 0] ![0, 0, 1]
        ![1, 1, 1] 10 20).getAmb =
      (Spotlight.new ![1, 2, 3] ![0, 0, 1] ![1, 0, 0] ![0, 1, 0] ![0, 0, 1]
        ![1, 1, 1] 10 20).amb :=
  ⟨(spotlight_gating _).1 rfl, ((spotlight_gating _).2 rfl).1⟩

/-- One key press keeps the screen controller gamma inside [1, 3]. -/
theorem screenController_gamma_step (c : ScreenController) (k : Keycode)
    (h1 : 1 ≤ c.gamma) (h3 : c.gamma ≤ 3) :
    1 ≤ (c.onKeyPressed k).gamma ∧ (c.onKeyPressed k).gamma ≤ 3 := by
  cases k <;> simp only [ScreenController.onKeyPressed] <;>
    constructor <;>
    first
      | exact h1
      | exact h3
      | exact le_min (by linarith) (by norm_num)
      | exact min_le_right _ _
      | exact le_max_right _ _
      | exact max_le (by linarith) (by norm_num)

/-- Any sequence of key presses keeps the gamma inside [1, 3], given that it
starts there. -/
theorem screenController_gamma_afterKeys (keys : List Keycode) :
    ∀ c : ScreenController, 1 ≤ c.gamma → c.gamma ≤ 3 →
      1 ≤ (c.afterKeys keys).gamma ∧ (c.afterKeys keys).gamma ≤ 3 := by
  induction keys with
  | nil => exact fun c h1 h3 => ⟨h1, h3⟩
  | cons k ks ih =>
    intro c h1 h3
    have hs := screenController_gamma_step c k h1 h3
    simpa [ScreenController.afterKeys] using ih (c.onKeyPressed k) hs.1 hs.2

/-- Claim C9: starting from the initial controller (gamma = 2.2), any finite
sequence of key-pressed signals keeps gamma within [1, 3] (EQUALS adds 0.2
capped at 3, MINUS subtracts 0.2 floored at 1), and process_signals copies
the clamped value into the screen parameters unchanged. -/
theorem screen_gamma_invariant (keys : List Keycode) (p : ScreenParameters) :
    1 ≤ (ScreenController.new.afterKeys keys).gamma ∧
    (ScreenController.new.afterKeys keys).gamma ≤ 3 ∧
    ((ScreenController.new.afterKeys keys).processSignals p).gamma =
      (ScreenController.new.afterKeys keys).gamma := by
  have h := screenController_gamma_afterKeys keys ScreenController.new
    (by norm_num [ScreenController.new, GAMMA]) (by norm_num [ScreenController.new, GAMMA])
  exact ⟨h.1, h.2, rfl⟩

/-- Claim C10: for an object with n >= 1 instances and 1 <= k <= n,
get_instance(-k) returns (successfully) the same instance as
get_instance(n-k); get_instance_mut returns that same instance and its only
state change is setting the dirty_instances flag. -/
theorem get_instance_negative_indexing (o : SceneObject) (k : ℤ)
    (h1 : 1 ≤ k) (h2 : k ≤ (o.instances.length : ℤ)) :
    (∃ a, o.getInstance (-k) = some a) ∧
    o.getInstance (-k) = o.getInstance ((o.instances.length : ℤ) - k) ∧
    (o.getInstanceMut (-k)).1 = o.getInstance (-k) ∧
    (o.getInstanceMut (-k)).2 = { o with dirtyInstances := true } := by
  have hneg : (-k) < 0 := by omega
  have hpos : ¬ ((o.instances.length : ℤ) - k < 0) := by omega
  have hidx : o.instances.length - (- -k).toNat = ((o.instances.length : ℤ) - k).toNat := by
    omega
  have hlt : o.instances.length - (- -k).toNat < o.instances.length := by omega
  refine ⟨⟨o.instances.get ⟨_, hlt⟩, ?_⟩, ?_, ?_, ?_⟩
  · simp only [SceneObject.getInstance, if_pos hneg]
    exact List.get?_eq_get hlt
  · simp only [SceneObject.getInstance, if_pos hneg, if_neg hpos, hidx]
  · simp only [SceneObject.getInstanceMut, SceneObject.getInstance, if_pos hneg]
  · rfl

/-- Witness for C10: a two-instance object, k = 1, so get_instance(-1)
returns the last instance, equal to get_instance(1). -/
theorem get_instance_negative_indexing_witness :
    (1 : ℤ) ≤ 1 ∧ (1 : ℤ) ≤ (({ SceneObject.fromDrawable with
        instances := [Instance.new, Instance.new] } : SceneObject).instances.length : ℤ) ∧
    ({ SceneObject.fromDrawable with
        instances := [Instance.new, Instance.new] } : SceneObject).getInstance (-1) =
      ({ SceneObject.fromDrawable with
        instances := [Instance.new, Instance.new] } : SceneObject).getInstance
        ((({ SceneObject.fromDrawable with
          instances := [Instance.new, Instance.new] } : SceneObject).instances.length : ℤ) - 1) :=
  ⟨le_refl 1, by norm_num,
    (get_instance_negative_indexing _ 1 (le_refl 1) (by norm_num)).2.1⟩

/-- The two pitch clamp bounds are ordered (pi exceeds 0.004). -/
theorem angle_bounds_le :
    -(Real.pi / 2) + ANGLE_LOWER_BOUND ≤ Real.pi / 2 - ANGLE_LOWER_BOUND := by
  have h := Real.pi_gt_three
  unfold ANGLE_LOWER_BOUND
  linarith

/-- A single Camera::rotate call leaves the pitch inside the clamp interval. -/
theorem camera_rotate_pitch_bounds (c : Camera) (e : V3 ℝ) :
    -(Real.pi / 2) + ANGLE_LOWER_BOUND ≤ (c.rotate e).pitch ∧
      (c.rotate e).pitch ≤ Real.pi / 2 - ANGLE_LOWER_BOUND := by
  constructor
  · exact le_min (le_max_right _ _) angle_bounds_le
  · exact min_le_right _ _

/-- Camera::rotate adds the y euler angle (converted to radians) to the yaw,
with no clamping. -/
theorem camera_rotate_yaw (c : Camera) (e : V3 ℝ) :
    (c.rotate e).yaw = c.yaw + toRadians (e 1) := rfl

/-- The yaw after a sequence of rotate calls is the initial yaw plus the sum
of all the (converted) y euler angles. -/
theorem camera_rotateSeq_yaw (rots : List (V3 ℝ)) :
    ∀ c : Camera, (c.rotateSeq rots).yaw =
      c.yaw + (rots.map fun e => toRadians (e 1)).sum := by
  induction rots with
  | nil => intro c; simp [Camera.rotateSeq]
  | cons r rs ih =>
    intro c
    have h := ih (c.rotate r)
    simp only [Camera.rotateSeq, List.foldl_cons] at h ⊢
    rw [h, camera_rotate_yaw]
    simp [add_assoc]

/-- Claim C2: after each Camera::rotate call of an arbitrary finite sequence
the pitch lies within [-pi/2 + eps, pi/2 - eps] for eps = ANGLE_LOWER_BOUND =
0.001 radians, while the yaw is never clamped: after the whole sequence it is
the initial yaw plus the sum of the (converted) y euler angles. -/
theorem camera_pitch_clamped (c : Camera) (rots : List (V3 ℝ)) (k : ℕ)
    (hk : k < rots.length) :
    (-(Real.pi / 2) + ANGLE_LOWER_BOUND ≤ (c.rotateSeq (rots.take (k + 1))).pitch ∧
      (c.rotateSeq (rots.take (k + 1))).pitch ≤ Real.pi / 2 - ANGLE_LOWER_BOUND) ∧
    (c.rotateSeq rots).yaw = c.yaw + (rots.map fun e => toRadians (e 1)).sum := by
  refine ⟨?_, camera_rotateSeq_yaw rots c⟩
  have htake : rots.take (k + 1) = rots.take k ++ [rots.get ⟨k, hk⟩] := by
    rw [List.take_succ, List.getElem?_eq_getElem hk]
    rfl
  rw [htake]
  simp only [Camera.rotateSeq, List.foldl_append, List.foldl_cons, List.foldl_nil]
  exact camera_rotate_pitch_bounds _ _

/-- Witness for C2: a concrete camera and a one-element rotation list. -/
theorem camera_pitch_clamped_witness :
    0 < ([![200, 30, 0]] : List (V3 ℝ)).length ∧
    (-(Real.pi / 2) + ANGLE_LOWER_BOUND ≤
        ((⟨![0, 0, 0], ![0, 0, 1], 0, 0, 0, 1⟩ : Camera).rotateSeq
          (([![200, 30, 0]] : List (V3 ℝ)).take 1)).pitch ∧
      ((⟨![0, 0, 0], ![0, 0, 1], 0, 0, 0, 1⟩ : Camera).rotateSeq
          (([![200, 30, 0]] : List (V3 ℝ)).take 1)).pitch ≤
        Real.pi / 2 - ANGLE_LOWER_BOUND) :=
  ⟨by norm_num,
    (camera_pitch_clamped ⟨![0, 0, 0], ![0, 0, 1], 0, 0, 0, 1⟩ [![200, 30, 0]] 0
      (by norm_num)).1⟩

/-- Converting to degrees, scaling, and converting back to radians is exact
scaling in the real model. -/
theorem toRadians_toDegrees_mul (p a : ℝ) : toRadians (toDegrees p * a) = p * a := by
  unfold toRadians toDegrees
  have hpi := Real.pi_ne_zero
  field_simp
  ring

/-- Camera::invert reflects an in-bounds pitch and advances the yaw by pi. -/
theorem camera_invert_pitch_yaw (c : Camera)
    (h1 : -(Real.pi / 2) + ANGLE_LOWER_BOUND ≤ c.pitch)
    (h2 : c.pitch ≤ Real.pi / 2 - ANGLE_LOWER_BOUND) :
    c.invert.pitch = -c.pitch ∧ c.invert.yaw = c.yaw + Real.pi := by
  have hpitch : (c.rotatePitch (toDegrees c.pitch * -2)).pitch = -c.pitch := by
    simp only [Camera.rotatePitch, Camera.rotate, Matrix.cons_val_zero]
    rw [toRadians_toDegrees_mul]
    rw [max_eq_left (by linarith), min_eq_left (by linarith)]
    ring_nf
  have hyaw : (c.rotatePitch (toDegrees c.pitch * -2)).yaw = c.yaw := by
    simp only [Camera.rotatePitch, Camera.rotate, Matrix.cons_val_one, Matrix.head_cons]
    simp [toRadians]
  constructor
  · show ((c.rotatePitch _).rotateYaw 180).pitch = -c.pitch
    simp only [Camera.rotateYaw, Camera.rotate, Matrix.cons_val_zero]
    rw [hpitch]
    simp only [toRadians, zero_mul]
    rw [add_zero, max_eq_left (by linarith), min_eq_left (by linarith)]
  · show ((c.rotatePitch _).rotateYaw 180).yaw = c.yaw + Real.pi
    simp only [Camera.rotateYaw, Camera.rotate, Matrix.cons_val_one, Matrix.head_cons]
    rw [hyaw]
    unfold toRadians
    have hpi := Real.pi_ne_zero
    field_simp

/-- Claim C5: for a camera whose pitch is inside the clamp bounds,
invert().invert() restores the pitch exactly (in the real model) and shifts
the yaw by exactly 2 pi. -/
theorem camera_invert_invert (c : Camera)
    (h1 : -(Real.pi / 2) + ANGLE_LOWER_BOUND ≤ c.pitch)
    (h2 : c.pitch ≤ Real.pi / 2 - ANGLE_LOWER_BOUND) :
    c.invert.invert.pitch = c.pitch ∧ c.invert.invert.yaw = c.yaw + 2 * Real.pi := by
  obtain ⟨hp, hy⟩ := camera_invert_pitch_yaw c h1 h2
  have h1i : -(Real.pi / 2) + ANGLE_LOWER_BOUND ≤ c.invert.pitch := by rw [hp]; linarith
  have h2i : c.invert.pitch ≤ Real.pi / 2 - ANGLE_LOWER_BOUND := by rw [hp]; linarith
  obtain ⟨hp2, hy2⟩ := camera_invert_pitch_yaw c.invert h1i h2i
  refine ⟨?_, ?_⟩
  · rw [hp2, hp, neg_neg]
  · rw [hy2, hy]; ring

/-- Witness for C5: the camera with pitch 0 satisfies the clamp bounds and
the double inversion restores its pitch while adding 2 pi to its yaw. -/
theorem camera_invert_invert_witness :
    (-(Real.pi / 2) + ANGLE_LOWER_BOUND ≤ (0 : ℝ) ∧
      (0 : ℝ) ≤ Real.pi / 2 - ANGLE_LOWER_BOUND) ∧
    ((⟨![0, 0, 0], ![0, 0, 1], 0, 5, 0, 1⟩ : Camera).invert.invert.pitch = 0 ∧
      (⟨![0, 0, 0], ![0, 0, 1], 0, 5, 0, 1⟩ : Camera).invert.invert.yaw =
        5 + 2 * Real.pi) := by
  have h := Real.pi_gt_three
  have h1 : -(Real.pi / 2) + ANGLE_LOWER_BOUND ≤ (0 : ℝ) := by
    unfold ANGLE_LOWER_BOUND; linarith
  have h2 : (0 : ℝ) ≤ Real.pi / 2 - ANGLE_LOWER_BOUND := by
    unfold ANGLE_LOWER_BOUND; linarith
  exact ⟨⟨h1, h2⟩, camera_invert_invert ⟨![0, 0, 0], ![0, 0, 1], 0, 5, 0, 1⟩ h1 h2⟩

/-- The camera built at (0,0,-2) has yaw pi/2: the focal point (0,0,2) makes
a right angle with the x axis. -/
theorem camera_new_yaw : (Camera.new ![0, 0, -2]).yaw = Real.pi / 2 := by
  show glmAngle ![-(0:ℝ), 0, -(-2)] ![1, 0, 0] = Real.pi / 2
  have hne : ¬ (normSq3 ![-(0:ℝ), 0, -(-2)] = 0 ∨ normSq3 ![(1:ℝ), 0, 0] = 0) := by
    simp [normSq3, dot3]
  rw [glmAngle, if_neg hne]
  have hdot : dot3 ![-(0:ℝ), 0, -(-2)] ![1, 0, 0] = 0 := by
    simp [dot3]
  rw [hdot]
  norm_num [Real.arccos_zero]

/-- The camera built at (0,0,-2) keeps its position. -/
theorem camera_new_pos : (Camera.new ![0, 0, -2]).pos = ![0, 0, -2] := rfl

/-- Claim C7 counterexample: from Camera::new(vec3(0,0,-2)), one
translate_forward(1.0) call does not increase z by 1 (it moves z from -2 to
-3, not to -1). -/
theorem camera_translate_forward_counterexample :
    ((Camera.new ![0, 0, -2]).translateForward 1).pos 2 ≠ (-2 : ℝ) + 1 := by
  have h2 : ((Camera.new ![0, 0, -2]).translateForward 1).pos 2 = -3 := by
    show (Camera.new ![0, 0, -2]).pos 2 -
        ![Real.cos (Camera.new ![0, 0, -2]).yaw, 0,
          Real.sin (Camera.new ![0, 0, -2]).yaw] 2 * 1 = -3
    rw [camera_new_yaw, camera_new_pos]
    simp [Real.sin_pi_div_two]
    norm_num
  rw [h2]
  norm_num

/-- Claim C7 (amended): from Camera::new(vec3(0,0,-2)) (yaw = pi/2, so the
camera looks along +z), translate_forward(1.0) moves the position from
(0,0,-2) to (0,0,-3): z decreases by exactly 1 while x and y are unchanged. -/
theorem camera_translate_forward_z :
    ((Camera.new ![0, 0, -2]).translateForward 1).pos = ![0, 0, -3] := by
  funext i
  show (Camera.new ![0, 0, -2]).pos i -
      ![Real.cos (Camera.new ![0, 0, -2]).yaw, 0,
        Real.sin (Camera.new ![0, 0, -2]).yaw] i * 1 = ![(0:ℝ), 0, -3] i
  rw [camera_new_yaw, camera_new_pos]
  fin_cases i <;>
    simp [Real.sin_pi_div_two, Real.cos_pi_div_two]
  all_goals norm_num

/-- Claim C1: after Scene::draw_objects sorts the objects with
distance_compare, the camera-to-object Euclidean distances are non-increasing
along the resulting list: for i < j, dist(sorted[i]) >= dist(sorted[j]).
(In the exact rational model every distance is well-defined, so the non-NaN
premise of the claim is vacuous.) -/
theorem draw_objects_back_to_front (camPos : V3 ℚ) (objs : List SceneObject)
    (i j : Fin (drawObjectsOrder camPos objs).length) (hij : i < j) :
    objDist camPos ((drawObjectsOrder camPos objs).get j) ≤
      objDist camPos ((drawObjectsOrder camPos objs).get i) := by
  have hs : (drawObjectsOrder camPos objs).Sorted (distCompareLe camPos) :=
    List.sorted_insertionSort (distCompareLe camPos) objs
  have h := hs.rel_get_of_lt hij
  unfold distCompareLe at h
  exact Real.sqrt_le_sqrt (by exact_mod_cast h)

/-- Witness for C1: a camera at the origin and two objects, the second
translated to distance 3; the sorted list has the farther object first and
the distances at indices 0 < 1 are non-increasing. -/
theorem draw_objects_back_to_front_witness :
    (⟨0, by simp only [drawObjectsOrder, List.length_insertionSort]; norm_num⟩ : Fin (drawObjectsOrder ![0, 0, 0]
        [SceneObject.fromDrawable, SceneObject.fromDrawable.translateBy ![3, 0, 0]]).length) <
      ⟨1, by simp only [drawObjectsOrder, List.length_insertionSort]; norm_num⟩ ∧
    objDist ![0, 0, 0] ((drawObjectsOrder ![0, 0, 0]
        [SceneObject.fromDrawable, SceneObject.fromDrawable.translateBy ![3, 0, 0]]).get
        ⟨1, by simp only [drawObjectsOrder, List.length_insertionSort]; norm_num⟩) ≤
      objDist ![0, 0, 0] ((drawObjectsOrder ![0, 0, 0]
        [SceneObject.fromDrawable, SceneObject.fromDrawable.translateBy ![3, 0, 0]]).get
        ⟨0, by simp only [drawObjectsOrder, List.length_insertionSort]; norm_num⟩) :=
  ⟨by simp [Fin.mk_lt_mk],
    draw_objects_back_to_front ![0, 0, 0]
      [SceneObject.fromDrawable, SceneObject.fromDrawable.translateBy ![3, 0, 0]]
      ⟨0, by simp only [drawObjectsOrder, List.length_insertionSort]; norm_num⟩ ⟨1, by simp only [drawObjectsOrder, List.length_insertionSort]; norm_num⟩
      (by simp [Fin.mk_lt_mk])⟩

/-- Spatial::translate adds the padded offset to the translation column. -/
theorem spatialTranslate_col3 {K : Type} [Field K] (M : M4 K) (v : V3 K) (i : Fin 4) :
    spatialTranslate M v i 3 = M i 3 + vec3ToVec4 v i := by
  simp [spatialTranslate, Matrix.updateColumn_self]

/-- Spatial::apply_rotation (hence Spatial::rotate) restores the saved
translation column exactly, for any rotation matrix and any model matrix. -/
theorem spatialApplyRotation_col3 {K : Type} [Field K] (M R : M4 K) (i : Fin 4) :
    spatialApplyRotation M R i 3 = M i 3 := by
  simp [spatialApplyRotation, Matrix.updateColumn_self]

/-- Spatial::scale preserves the translation column whenever the matrix is an
affine transform (entry (3,3) equal to one). -/
theorem spatialScale_col3 {K : Type} [Field K] (M : M4 K) (s : V3 K) (h : M 3 3 = 1)
    (i : Fin 4) : spatialScale M s i 3 = M i 3 := by
  fin_cases i <;>
    simp [spatialScale, translationMat, scalingMat, vec4ToVec3, Matrix.mul_apply,
      Matrix.vecMul, Matrix.dotProduct, Fin.sum_univ_four, h]

/-- The padded offset vector of a sum is the sum of the padded vectors. -/
theorem vec3ToVec4_add {K : Type} [Field K] (v w : V3 K) (i : Fin 4) :
    vec3ToVec4 (v + w) i = vec3ToVec4 v i + vec3ToVec4 w i := by
  fin_cases i <;> simp [vec3ToVec4]

/-- Translation-column accounting for a whole trace of Spatial calls: each
entry of column 3 gains the padded sum of the translate offsets, and the
affine invariant (entry (3,3) = 1) is preserved. -/
theorem applySpatialOps_col3 (ops : List SpatialOp) :
    ∀ M : M4 ℝ, M 3 3 = 1 →
      ∀ i : Fin 4, applySpatialOps M ops i 3 = M i 3 + vec3ToVec4 (transOffsetSum ops) i := by
  induction ops with
  | nil =>
    intro M h i
    have hz : vec3ToVec4 (transOffsetSum ([] : List SpatialOp)) i = 0 := by
      fin_cases i <;> simp [vec3ToVec4, transOffsetSum]
    simp [applySpatialOps, hz]
  | cons op ops ih =>
    intro M h i
    have hstep : ∀ N : M4 ℝ, applySpatialOps N (op :: ops) = applySpatialOps (applySpatialOp N op) ops :=
      fun N => rfl
    cases op with
    | translate v =>
      have h3 : applySpatialOp M (SpatialOp.translate v) 3 3 = 1 := by
        show spatialTranslate M v 3 3 = 1
        rw [spatialTranslate_col3]
        simp [vec3ToVec4, h]
      rw [hstep, ih _ h3 i]
      show spatialTranslate M v i 3 + _ = _
      rw [spatialTranslate_col3]
      show M i 3 + vec3ToVec4 v i + vec3ToVec4 (transOffsetSum ops) i =
        M i 3 + vec3ToVec4 (transOffsetSum (SpatialOp.translate v :: ops)) i
      rw [show transOffsetSum (SpatialOp.translate v :: ops) = v + transOffsetSum ops from rfl,
        vec3ToVec4_add]
      ring
    | rotate angle axis =>
      have h3 : applySpatialOp M (SpatialOp.rotate angle axis) 3 3 = 1 := by
        show spatialApplyRotation M (rotationMat angle axis) 3 3 = 1
        rw [spatialApplyRotation_col3, h]
      rw [hstep, ih _ h3 i]
      show spatialApplyRotation M (rotationMat angle axis) i 3 + _ = _
      rw [spatialApplyRotation_col3]
      rfl
    | scale factors =>
      have h3 : applySpatialOp M (SpatialOp.scale factors) 3 3 = 1 := by
        show spatialScale M factors 3 3 = 1
        rw [spatialScale_col3 M factors h, h]
      rw [hstep, ih _ h3 i]
      show spatialScale M factors i 3 + _ = _
      rw [spatialScale_col3 M factors h]
      rfl

/-- The affine invariant holds for every trace starting at the identity. -/
theorem applySpatialOps_affine (ops : List SpatialOp) : applySpatialOps 1 ops 3 3 = 1 := by
  have h := applySpatialOps_col3 ops 1 (by simp) 3
  simpa [vec3ToVec4] using h

/-- Claim C3: along any trace of Spatial calls starting from the identity
model matrix, every rotate and scale step leaves the whole translation column
(column 3) unchanged, and at the end the xyz part of the translation column
equals the sum of all translate offsets while the w entry is still 1. -/
theorem spatial_translation_column (ops : List SpatialOp) (k : ℕ) (hk : k < ops.length)
    (hlin : (ops.get ⟨k, hk⟩).isLinear = true) :
    (∀ i : Fin 4, applySpatialOps 1 (ops.take (k + 1)) i 3 =
      applySpatialOps 1 (ops.take k) i 3) ∧
    (applySpatialOps 1 ops 0 3 = transOffsetSum ops 0 ∧
      applySpatialOps 1 ops 1 3 = transOffsetSum ops 1 ∧
      applySpatialOps 1 ops 2 3 = transOffsetSum ops 2) ∧
    applySpatialOps 1 ops 3 3 = 1 := by
  refine ⟨?_, ?_, applySpatialOps_affine ops⟩
  · intro i
    have htake : ops.take (k + 1) = ops.take k ++ [ops.get ⟨k, hk⟩] := by
      rw [List.take_succ, List.getElem?_eq_getElem hk]
      rfl
    have haff : applySpatialOps 1 (ops.take k) 3 3 = 1 := applySpatialOps_affine _
    rw [htake]
    rw [show applySpatialOps 1 (ops.take k ++ [ops.get ⟨k, hk⟩]) =
      applySpatialOp (applySpatialOps 1 (ops.take k)) (ops.get ⟨k, hk⟩) from by
        simp only [applySpatialOps]
        rw [List.foldl_append]
        simp only [List.foldl_cons, List.foldl_nil]]
    cases hop : ops.get ⟨k, hk⟩ with
    | translate v => rw [hop] at hlin; exact absurd hlin (by simp [SpatialOp.isLinear])
    | rotate angle axis => exact spatialApplyRotation_col3 _ _ i
    | scale factors => exact spatialScale_col3 _ _ haff i
  · refine ⟨?_, ?_, ?_⟩ <;>
    · rw [applySpatialOps_col3 ops 1 (by simp) _]
      simp [vec3ToVec4, Matrix.one_apply]

/-- Witness for C3: the trace [translate (1,2,3), scale (2,2,2)]; the scale
step (index 1) is linear and preserves the translation column, and the final
translation column is ((1,2,3), 1). -/
theorem spatial_translation_column_witness :
    1 < ([SpatialOp.translate ![1, 2, 3], SpatialOp.scale ![2, 2, 2]] : List SpatialOp).length ∧
    (∀ i : Fin 4,
      applySpatialOps 1 (([SpatialOp.translate ![1, 2, 3],
          SpatialOp.scale ![2, 2, 2]] : List SpatialOp).take 2) i 3 =
        applySpatialOps 1 (([SpatialOp.translate ![1, 2, 3],
          SpatialOp.scale ![2, 2, 2]] : List SpatialOp).take 1) i 3) ∧
    applySpatialOps 1 [SpatialOp.translate ![1, 2, 3], SpatialOp.scale ![2, 2, 2]] 0 3 =
      transOffsetSum [SpatialOp.translate ![1, 2, 3], SpatialOp.scale ![2, 2, 2]] 0 := by
  have h := spatial_translation_column
    [SpatialOp.translate ![1, 2, 3], SpatialOp.scale ![2, 2, 2]] 1 (by norm_num) rfl
  exact ⟨by norm_num, h.1, h.2.1.1⟩

/-- Claim C4 (code-bug exhibit): SceneObject's get_normal does NOT recompute
the normal matrix after a mutation, because no mutator ever sets the
dirty_normal flag. After scaling a fresh SceneObject by (2,2,2), get_normal
still returns the identity, yet the identity is not the inverse-transpose of
the model's upper-left 3x3 block (their product is not the identity). For
Instance the recompute is eager, but the claim quantifies over SceneObject
too, where the code contradicts it. -/
theorem sceneObject_normal_stale :
    (SceneObject.fromDrawable.scaleBy ![2, 2, 2]).getNormal.2 = 1 ∧
    (mat4ToMat3 (SceneObject.fromDrawable.scaleBy ![2, 2, 2]).model).transpose *
      (SceneObject.fromDrawable.scaleBy ![2, 2, 2]).getNormal.2 ≠ 1 := by
  have hnorm : (SceneObject.fromDrawable.scaleBy ![2, 2, 2]).getNormal.2 = 1 := rfl
  refine ⟨hnorm, ?_⟩
  rw [hnorm, Matrix.mul_one]
  intro h
  have h00 := congrArg (fun A => A 0 0) h
  simp only [Matrix.transpose_apply, mat4ToMat3, SceneObject.scaleBy, SceneObject.setModel,
    SceneObject.getModel, SceneObject.fromDrawable] at h00
  rw [show ((0 : Fin 3).castSucc : Fin 4) = 0 from rfl] at h00
  simp [spatialScale, translationMat, scalingMat, vec4ToVec3, Matrix.mul_apply,
    Matrix.vecMul, Matrix.dotProduct, Fin.sum_univ_four, Matrix.one_apply] at h00

/-- Normalizing a positive multiple of the x axis. -/
theorem normalize3_px (t : ℝ) (ht : 0 < t) : normalize3 ![t, 0, 0] = ![1, 0, 0] := by
  have h : normSq3 ![t, 0, 0] = t * t := by simp [normSq3, dot3]
  funext i
  fin_cases i <;> simp [normalize3, h, Real.sqrt_mul_self ht.le, div_self ht.ne']

/-- Normalizing a negative multiple of the x axis. -/
theorem normalize3_nx (t : ℝ) (ht : 0 < t) : normalize3 ![-t, 0, 0] = ![-1, 0, 0] := by
  have h : normSq3 ![-t, 0, 0] = t * t := by simp [normSq3, dot3]
  funext i
  fin_cases i <;> simp [normalize3, h, Real.sqrt_mul_self ht.le, neg_div, div_self ht.ne']

/-- Normalizing a positive multiple of the y axis. -/
theorem normalize3_py (t : ℝ) (ht : 0 < t) : normalize3 ![0, t, 0] = ![0, 1, 0] := by
  have h : normSq3 ![0, t, 0] = t * t := by simp [normSq3, dot3]
  funext i
  fin_cases i <;> simp [normalize3, h, Real.sqrt_mul_self ht.le, div_self ht.ne']

/-- Normalizing a negative multiple of the y axis. -/
theorem normalize3_ny (t : ℝ) (ht : 0 < t) : normalize3 ![0, -t, 0] = ![0, -1, 0] := by
  have h : normSq3 ![0, -t, 0] = t * t := by simp [normSq3, dot3]
  funext i
  fin_cases i <;> simp [normalize3, h, Real.sqrt_mul_self ht.le, neg_div, div_self ht.ne']

/-- Normalizing a positive multiple of the z axis. -/
theorem normalize3_pz (t : ℝ) (ht : 0 < t) : normalize3 ![0, 0, t] = ![0, 0, 1] := by
  have h : normSq3 ![0, 0, t] = t * t := by simp [normSq3, dot3]
  funext i
  fin_cases i <;> simp [normalize3, h, Real.sqrt_mul_self ht.le, div_self ht.ne']

/-- Normalizing a negative multiple of the z axis. -/
theorem normalize3_nz (t : ℝ) (ht : 0 < t) : normalize3 ![0, 0, -t] = ![0, 0, -1] := by
  have h : normSq3 ![0, 0, -t] = t * t := by simp [normSq3, dot3]
  funext i
  fin_cases i <;> simp [normalize3, h, Real.sqrt_mul_self ht.le, neg_div, div_self ht.ne']

/-- Face 0 of the cube loop (top, +y): all four of vertices 0-3 gain the
outward unit normal (0,1,0). -/
theorem cubeFaceStep_apply0 (s : ℝ) (hs : 0 < s) (f : ℕ → V3 ℝ) (k : ℕ) :
    cubeFaceStep s f 0 k =
      if k = 0 ∨ k = 1 ∨ k = 2 ∨ k = 3 then f k + ![0, 1, 0] else f k := by
  have h1 : cross3 (cubeVertexPos s 2 - cubeVertexPos s 0)
      (cubeVertexPos s 1 - cubeVertexPos s 0) = ![0, s * s, 0] := by
    funext i
    fin_cases i <;> simp [cross3, cubeVertexPos, cubeBaseVertices, Vertex.new]
    all_goals ring
  have h2 : cross3 (cubeVertexPos s 1 - cubeVertexPos s 3)
      (cubeVertexPos s 2 - cubeVertexPos s 3) = ![0, s * s, 0] := by
    funext i
    fin_cases i <;> simp [cross3, cubeVertexPos, cubeBaseVertices, Vertex.new]
    all_goals ring
  simp only [cubeFaceStep,
    show cubeIndices.getD (0 * 6) 0 = 0 from rfl,
    show cubeIndices.getD (0 * 6 + 1) 0 = 2 from rfl,
    show cubeIndices.getD (0 * 6 + 2) 0 = 1 from rfl,
    show cubeIndices.getD (0 * 6 + 5) 0 = 3 from rfl]
  rw [h1, h2, normalize3_py (s * s) (mul_pos hs hs)]
  simp only [addAt]
  split_ifs <;> first | rfl | omega

/-- Face 1 of the cube loop (bottom, -y): vertices 4-7 gain (0,-1,0). -/
theorem cubeFaceStep_apply1 (s : ℝ) (hs : 0 < s) (f : ℕ → V3 ℝ) (k : ℕ) :
    cubeFaceStep s f 1 k =
      if k = 4 ∨ k = 5 ∨ k = 6 ∨ k = 7 then f k + ![0, -1, 0] else f k := by
  have h1 : cross3 (cubeVertexPos s 5 - cubeVertexPos s 4)
      (cubeVertexPos s 6 - cubeVertexPos s 4) = ![0, -(s * s), 0] := by
    funext i
    fin_cases i <;> simp [cross3, cubeVertexPos, cubeBaseVertices, Vertex.new]
    all_goals ring
  have h2 : cross3 (cubeVertexPos s 6 - cubeVertexPos s 7)
      (cubeVertexPos s 5 - cubeVertexPos s 7) = ![0, -(s * s), 0] := by
    funext i
    fin_cases i <;> simp [cross3, cubeVertexPos, cubeBaseVertices, Vertex.new]
    all_goals ring
  simp only [cubeFaceStep,
    show cubeIndices.getD (1 * 6) 0 = 4 from rfl,
    show cubeIndices.getD (1 * 6 + 1) 0 = 5 from rfl,
    show cubeIndices.getD (1 * 6 + 2) 0 = 6 from rfl,
    show cubeIndices.getD (1 * 6 + 5) 0 = 7 from rfl]
  rw [h1, h2, normalize3_ny (s * s) (mul_pos hs hs)]
  simp only [addAt]
  split_ifs <;> first | rfl | omega

/-- Face 2 of the cube loop (back, -z): vertices 8-11 gain (0,0,-1). -/
theorem cubeFaceStep_apply2 (s : ℝ) (hs : 0 < s) (f : ℕ → V3 ℝ) (k : ℕ) :
    cubeFaceStep s f 2 k =
      if k = 8 ∨ k = 9 ∨ k = 10 ∨ k = 11 then f k + ![0, 0, -1] else f k := by
  have h1 : cross3 (cubeVertexPos s 10 - cubeVertexPos s 8)
      (cubeVertexPos s 9 - cubeVertexPos s 8) = ![0, 0, -(s * s)] := by
    funext i
    fin_cases i <;> simp [cross3, cubeVertexPos, cubeBaseVertices, Vertex.new]
    all_goals ring
  have h2 : cross3 (cubeVertexPos s 9 - cubeVertexPos s 11)
      (cubeVertexPos s 10 - cubeVertexPos s 11) = ![0, 0, -(s * s)] := by
    funext i
    fin_cases i <;> simp [cross3, cubeVertexPos, cubeBaseVertices, Vertex.new]
    all_goals ring
  simp only [cubeFaceStep,
    show cubeIndices.getD (2 * 6) 0 = 8 from rfl,
    show cubeIndices.getD (2 * 6 + 1) 0 = 10 from rfl,
    show cubeIndices.getD (2 * 6 + 2) 0 = 9 from rfl,
    show cubeIndices.getD (2 * 6 + 5) 0 = 11 from rfl]
  rw [h1, h2, normalize3_nz (s * s) (mul_pos hs hs)]
  simp only [addAt]
  split_ifs <;> first | rfl | omega

/-- Face 3 of the cube loop (right, +x): vertices 12-15 gain (1,0,0). -/
theorem cubeFaceStep_apply3 (s : ℝ) (hs : 0 < s) (f : ℕ → V3 ℝ) (k : ℕ) :
    cubeFaceStep s f 3 k =
      if k = 12 ∨ k = 13 ∨ k = 14 ∨ k = 15 then f k + ![1, 0, 0] else f k := by
  have h1 : cross3 (cubeVertexPos s 14 - cubeVertexPos s 12)
      (cubeVertexPos s 13 - cubeVertexPos s 12) = ![s * s, 0, 0] := by
    funext i
    fin_cases i <;> simp [cross3, cubeVertexPos, cubeBaseVertices, Vertex.new]
    all_goals ring
  have h2 : cross3 (cubeVertexPos s 13 - cubeVertexPos s 15)
      (cubeVertexPos s 14 - cubeVertexPos s 15) = ![s * s, 0, 0] := by
    funext i
    fin_cases i <;> simp [cross3, cubeVertexPos, cubeBaseVertices, Vertex.new]
    all_goals ring
  simp only [cubeFaceStep,
    show cubeIndices.getD (3 * 6) 0 = 12 from rfl,
    show cubeIndices.getD (3 * 6 + 1) 0 = 14 from rfl,
    show cubeIndices.getD (3 * 6 + 2) 0 = 13 from rfl,
    show cubeIndices.getD (3 * 6 + 5) 0 = 15 from rfl]
  rw [h1, h2, normalize3_px (s * s) (mul_pos hs hs)]
  simp only [addAt]
  split_ifs <;> first | rfl | omega

/-- Face 4 of the cube loop (front, +z): vertices 16-19 gain (0,0,1). -/
theorem cubeFaceStep_apply4 (s : ℝ) (hs : 0 < s) (f : ℕ → V3 ℝ) (k : ℕ) :
    cubeFaceStep s f 4 k =
      if k = 16 ∨ k = 17 ∨ k = 18 ∨ k = 19 then f k + ![0, 0, 1] else f k := by
  have h1 : cross3 (cubeVertexPos s 18 - cubeVertexPos s 16)
      (cubeVertexPos s 17 - cubeVertexPos s 16) = ![0, 0, s * s] := by
    funext i
    fin_cases i <;> simp [cross3, cubeVertexPos, cubeBaseVertices, Vertex.new]
    all_goals ring
  have h2 : cross3 (cubeVertexPos s 17 - cubeVertexPos s 19)
      (cubeVertexPos s 18 - cubeVertexPos s 19) = ![0, 0, s * s] := by
    funext i
    fin_cases i <;> simp [cross3, cubeVertexPos, cubeBaseVertices, Vertex.new]
    all_goals ring
  simp only [cubeFaceStep,
    show cubeIndices.getD (4 * 6) 0 = 16 from rfl,
    show cubeIndices.getD (4 * 6 + 1) 0 = 18 from rfl,
    show cubeIndices.getD (4 * 6 + 2) 0 = 17 from rfl,
    show cubeIndices.getD (4 * 6 + 5) 0 = 19 from rfl]
  rw [h1, h2, normalize3_pz (s * s) (mul_pos hs hs)]
  simp only [addAt]
  split_ifs <;> first | rfl | omega

/-- Face 5 of the cube loop (left, -x): vertices 20-23 gain (-1,0,0). -/
theorem cubeFaceStep_apply5 (s : ℝ) (hs : 0 < s) (f : ℕ → V3 ℝ) (k : ℕ) :
    cubeFaceStep s f 5 k =
      if k = 20 ∨ k = 21 ∨ k = 22 ∨ k = 23 then f k + ![-1, 0, 0] else f k := by
  have h1 : cross3 (cubeVertexPos s 22 - cubeVertexPos s 20)
      (cubeVertexPos s 21 - cubeVertexPos s 20) = ![-(s * s), 0, 0] := by
    funext i
    fin_cases i <;> simp [cross3, cubeVertexPos, cubeBaseVertices, Vertex.new]
    all_goals ring
  have h2 : cross3 (cubeVertexPos s 21 - cubeVertexPos s 23)
      (cubeVertexPos s 22 - cubeVertexPos s 23) = ![-(s * s), 0, 0] := by
    funext i
    fin_cases i <;> simp [cross3, cubeVertexPos, cubeBaseVertices, Vertex.new]
    all_goals ring
  simp only [cubeFaceStep,
    show cubeIndices.getD (5 * 6) 0 = 20 from rfl,
    show cubeIndices.getD (5 * 6 + 1) 0 = 22 from rfl,
    show cubeIndices.getD (5 * 6 + 2) 0 = 21 from rfl,
    show cubeIndices.getD (5 * 6 + 5) 0 = 23 from rfl]
  rw [h1, h2, normalize3_nx (s * s) (mul_pos hs hs)]
  simp only [addAt]
  split_ifs <;> first | rfl | omega

/-- The accumulated normals array after the whole face loop: every vertex of
each face carries that face's outward unit normal (each vertex is touched by
exactly one loop iteration). -/
theorem cubeNormalsArr_apply (s : ℝ) (hs : 0 < s) (k : ℕ) :
    cubeNormalsArr s k =
      if k ≤ 3 then ![0, 1, 0] else if k ≤ 7 then ![0, -1, 0]
      else if k ≤ 11 then ![0, 0, -1] else if k ≤ 15 then ![1, 0, 0]
      else if k ≤ 19 then ![0, 0, 1] else if k ≤ 23 then ![-1, 0, 0] else 0 := by
  show (List.range 6).foldl (cubeFaceStep s) (fun _ => 0) k = _
  rw [show List.range 6 = [0, 1, 2, 3, 4, 5] from rfl]
  simp only [List.foldl_cons, List.foldl_nil]
  rw [cubeFaceStep_apply5 s hs, cubeFaceStep_apply4 s hs, cubeFaceStep_apply3 s hs,
    cubeFaceStep_apply2 s hs, cubeFaceStep_apply1 s hs, cubeFaceStep_apply0 s hs]
  rcases Nat.lt_or_ge k 24 with hk | hk
  · interval_cases k <;> simp
  · have hd0 : ¬ (k = 0 ∨ k = 1 ∨ k = 2 ∨ k = 3) := by omega
    have hd1 : ¬ (k = 4 ∨ k = 5 ∨ k = 6 ∨ k = 7) := by omega
    have hd2 : ¬ (k = 8 ∨ k = 9 ∨ k = 10 ∨ k = 11) := by omega
    have hd3 : ¬ (k = 12 ∨ k = 13 ∨ k = 14 ∨ k = 15) := by omega
    have hd4 : ¬ (k = 16 ∨ k = 17 ∨ k = 18 ∨ k = 19) := by omega
    have hd5 : ¬ (k = 20 ∨ k = 21 ∨ k = 22 ∨ k = 23) := by omega
    have hr0 : ¬ k ≤ 3 := by omega
    have hr1 : ¬ k ≤ 7 := by omega
    have hr2 : ¬ k ≤ 11 := by omega
    have hr3 : ¬ k ≤ 15 := by omega
    have hr4 : ¬ k ≤ 19 := by omega
    have hr5 : ¬ k ≤ 23 := by omega
    simp [hd0, hd1, hd2, hd3, hd4, hd5, hr0, hr1, hr2, hr3, hr4, hr5]

/-- Claim C8 (amended): for every positive side length the cube mesh has
exactly 24 vertices and 36 indices, and every vertex normal has SQUARED norm
1/16 (the unit face normal divided by 4, hence length 1/4 -- not unit length)
and points away from the cube center (positive dot product with the vertex
position). -/
theorem cube_mesh_properties (s : ℝ) (hs : 0 < s) :
    (BasicMesh.cube s).vertices.length = 24 ∧
    (BasicMesh.cube s).indices.length = 36 ∧
    ∀ v ∈ (BasicMesh.cube s).vertices,
      normSq3 v.normal = 1 / 16 ∧ 0 < dot3 v.normal v.pos := by
  refine ⟨?_, rfl, ?_⟩
  · simp [BasicMesh.cube, List.length_mapIdx, cubeBaseVertices]
  · intro v hv
    simp only [BasicMesh.cube] at hv
    rw [List.mem_iff_getElem] at hv
    obtain ⟨i, hi, hv⟩ := hv
    have hi24 : i < 24 := by
      simpa [List.length_mapIdx, cubeBaseVertices] using hi
    rw [List.getElem_mapIdx] at hv
    subst hv
    have hn := cubeNormalsArr_apply s hs i
    interval_cases i <;>
      · simp only [hn]
        norm_num [normSq3, dot3, cubeBaseVertices, Vertex.new]
        first
          | positivity
          | linarith

/-- Witness for C8: the unit cube has 24 vertices and 36 indices. -/
theorem cube_mesh_properties_witness :
    (0 : ℝ) < 1 ∧ (BasicMesh.cube 1).vertices.length = 24 ∧
      (BasicMesh.cube 1).indices.length = 36 :=
  ⟨one_pos, (cube_mesh_properties 1 one_pos).1, (cube_mesh_properties 1 one_pos).2.1⟩

/-- Claim C8 counterexample: at side length 1 the first cube vertex normal is
(0, 1/4, 0), whose squared norm is 1/16, so it is not unit-length. -/
theorem cube_unit_normal_counterexample :
    ¬ ∀ v ∈ (BasicMesh.cube 1).vertices, normSq3 v.normal = 1 := by
  intro h
  have h24 : 0 < (BasicMesh.cube 1).vertices.length := by
    simp [BasicMesh.cube, List.length_mapIdx, cubeBaseVertices]
  have hv := h ((BasicMesh.cube 1).vertices.get ⟨0, h24⟩) (List.get_mem _ _ _)
  have hval : normSq3 ((BasicMesh.cube 1).vertices.get ⟨0, h24⟩).normal = 1 / 16 := by
    show normSq3 ((BasicMesh.cube 1).vertices[0]).normal = 1 / 16
    simp only [BasicMesh.cube, List.getElem_mapIdx]
    norm_num [normSq3, dot3, cubeNormalsArr_apply 1 one_pos 0]
  rw [hval] at hv
  norm_num at hv

end Tungus
